import Mathlib

/-!
Verification development for the RubricDeepResearchDashboard backend.

The definitions below are a shallow embedding of the Python services under
`backend/app/services/` (and the SQLAlchemy models under `backend/app/models/`):

* `updateIsDeliveredStatus` embeds `DataSyncService._update_is_delivered_status`
  (data_sync_service.py, lines 534-590);
* `calculate_week_number` embeds the module-level `calculate_week_number`
  (data_sync_service.py, lines 18-49);
* `runTableReplace` embeds the delete-then-batched-insert session block shared by
  `DataSyncService.sync_review_detail` (lines 234-248) and
  `DataSyncService.sync_task` (lines 369-383);
* `processAggregationResults` / `processClientDeliveryAggregation` embed
  `PostgresQueryService._process_aggregation_results` (postgres_query_service.py,
  lines 107-210) and `_process_client_delivery_aggregation` (lines 212-314);
* `get_overall_aggregation` / `get_domain_aggregation` embed the corresponding
  `PostgresQueryService` methods (lines 316-417 and 419-465);
* `upsertWorkItem` / `insert_work_items` embed
  `S3IngestionService.insert_work_items` (s3_ingestion_service.py, lines 244-282);
* `extract_work_items_from_json` / `ingest_from_s3` embed
  `S3IngestionService.extract_work_items_from_json` (lines 165-242) and
  `S3IngestionService.ingest_from_s3` (lines 284-405);
* `applyFeedbackRow` embeds the per-row body of
  `ClientFeedbackService._update_work_items` (client_feedback_service.py,
  lines 164-206).

Modelling conventions: machine timestamps and dates are integers (day ordinals);
SQL / Python numeric scores are rationals; nullable columns and Python `None`
are `Option`; Python `dict` is an insertion-ordered association list, Python
`set` an insertion-ordered duplicate-free list (sets are only consumed through
cardinality, membership and sums, which are order-insensitive).
-/

namespace RubricDashboard

/-- Python `set.add`: append the element unless it is already present. -/
def pySetAdd {α : Type} [DecidableEq α] (s : List α) (a : α) : List α :=
  if a ∈ s then s else s ++ [a]

/-- Python `set(iterable)` / SQL `DISTINCT`: first-occurrence deduplication. -/
def pyDistinct {α : Type} [DecidableEq α] (l : List α) : List α :=
  l.foldl pySetAdd []

/-- Python `d[k] = v` on an insertion-ordered dict: replace in place when the
key exists, otherwise append a new entry. -/
def dictSet {κ β : Type} [DecidableEq κ] (d : List (κ × β)) (k : κ) (v : β) :
    List (κ × β) :=
  if k ∈ d.map Prod.fst then
    d.map (fun p => if p.1 = k then (p.1, v) else p)
  else
    d ++ [(k, v)]

/-- Python `d.get(k)` on an insertion-ordered dict. -/
def dictGet? {κ β : Type} [DecidableEq κ] : List (κ × β) → κ → Option β
  | [], _ => none
  | p :: rest, k => if p.1 = k then some p.2 else dictGet? rest k

/-- Python `d.update(e)`: fold the entries of `e` into `d`, overwriting in
place and appending new keys in order. -/
def dictMerge {κ β : Type} [DecidableEq κ] (d e : List (κ × β)) : List (κ × β) :=
  e.foldl (fun acc p => dictSet acc p.1 p.2) d

/-- Python `str.strip()`: remove whitespace from both ends. (Defined over the
character list so that concrete instances evaluate; equivalent to
`String.trim` for the ASCII data handled here.) -/
def pyStrip (s : String) : String :=
  ⟨((s.data.dropWhile Char.isWhitespace).reverse.dropWhile Char.isWhitespace).reverse⟩

/-- Python `str.upper()` (ASCII; the verdict strings compared against are
ASCII literals). -/
def pyUpper (s : String) : String :=
  ⟨s.data.map Char.toUpper⟩

/-- Floor of a rational: numerator integer-divided by the (positive)
denominator. -/
def ratFloor (a : ℚ) : ℤ :=
  a.num / (a.den : ℤ)

/-- Python `round(q, 2)` (source rounds every reported average to two decimal
places), modeled as `floor(q * 100 + 1/2) / 100`. Python rounds half to even;
this model rounds half up at exact `.005` boundaries — none of the proved
properties depends on that case. -/
def roundTo2 (q : ℚ) : ℚ :=
  ((ratFloor (q * 100 + 1 / 2) : ℤ) : ℚ) / 100

/-- Lexicographic comparison on character lists (Python string `<=`, used as
the sort key comparison). -/
def charListLe : List Char → List Char → Bool
  | [], _ => true
  | _ :: _, [] => false
  | a :: as, b :: bs => if a < b then true else if b < a then false else charListLe as bs

/-- Python string comparison `s <= t` (lexicographic by code point). -/
def pyStrLe (s t : String) : Bool :=
  charListLe s.data t.data

/-- Row of the `task` table (`db_models.Task`, db_models.py lines 76-97).
Dates are day ordinals. `rework_count` appears in the synced query result
(`_build_task_query`) and is queried as `Task.rework_count` by the aggregation
code, so it is part of the row shape the services operate on. -/
structure TaskRow where
  id : Int
  created_at : Option Int := none
  updated_at : Option Int := none
  statement : Option String := none
  status : Option String := none
  project_id : Option Int := none
  batch_id : Option Int := none
  current_user_id : Option Int := none
  colab_link : Option String := none
  week_number : Option Int := none
  is_delivered : Option String := none
  domain : Option String := none
  rework_count : Option Int := none
deriving DecidableEq, Repr

/-- Row of the `review_detail` table (`db_models.ReviewDetail`, db_models.py
lines 15-51). -/
structure ReviewDetailRow where
  id : Int := 0
  quality_dimension_id : Option Int := none
  domain : Option String := none
  human_role_id : Option Int := none
  review_id : Option Int := none
  reviewer_id : Option Int := none
  conversation_id : Option Int := none
  is_delivered : Option String := none
  name : Option String := none
  score_text : Option String := none
  score : Option ℚ := none
  task_score : Option ℚ := none
  updated_at : Option Int := none
deriving DecidableEq, Repr

/-- Row of the `work_item` table (`db_models.WorkItem`, db_models.py lines
130-167). `created_at` defaults to an abstract clock value 0. -/
structure WorkItemRow where
  work_item_id : String
  task_id : String
  annotator_id : Option Int := none
  colab_link : Option String := none
  ingestion_date : Option String := none
  delivery_date : Option Int := none
  json_filename : Option String := none
  created_at : Int := 0
  turing_status : String := "Delivered"
  client_status : String := "Pending"
  task_level_feedback : Option String := none
  error_categories : Option String := none
deriving DecidableEq, Repr

/-- The relational-store state visible to status reconciliation. -/
@[ext]
structure DbState where
  work_items : List WorkItemRow
  tasks : List TaskRow
  review_details : List ReviewDetailRow
deriving DecidableEq, Repr

/-- Step 1 of `_update_is_delivered_status` (data_sync_service.py lines
549-550): distinct `WorkItem.colab_link` values, keeping only truthy (non-null,
non-empty) links. -/
def deliveredColabLinks (wis : List WorkItemRow) : List String :=
  (pyDistinct (wis.map (·.colab_link))).filterMap fun o =>
    match o with
    | some s => if s = "" then none else some s
    | none => none

/-- SQL predicate `Task.colab_link.in_(links)`: a NULL link never matches. -/
def taskLinkDelivered (links : List String) (t : TaskRow) : Bool :=
  match t.colab_link with
  | some s => decide (s ∈ links)
  | none => false

/-- SQL predicate `ReviewDetail.conversation_id.in_(ids)`. -/
def rdDelivered (ids : List Int) (r : ReviewDetailRow) : Bool :=
  match r.conversation_id with
  | some c => decide (c ∈ ids)
  | none => false

/-- Embedding of `DataSyncService._update_is_delivered_status`
(data_sync_service.py lines 534-590): collect distinct work-item collaboration
links; clear `Task.is_delivered` to the string "False" for every row, then set
"True" for rows whose link is in the set (skipped when the set is empty, as in
the source); collect the delivered task ids; clear and re-set
`ReviewDetail.is_delivered` the same way from those ids. -/
def updateIsDeliveredStatus (db : DbState) : DbState :=
  let links := deliveredColabLinks db.work_items
  let tasksCleared := db.tasks.map fun t => { t with is_delivered := some "False" }
  let tasksUpdated :=
    if links.isEmpty then tasksCleared
    else tasksCleared.map fun t =>
      if taskLinkDelivered links t then { t with is_delivered := some "True" } else t
  let deliveredTaskIds :=
    if links.isEmpty then ([] : List Int)
    else (tasksUpdated.filter (taskLinkDelivered links)).map (·.id)
  let rdsCleared := db.review_details.map fun r => { r with is_delivered := some "False" }
  let rdsUpdated :=
    if deliveredTaskIds.isEmpty then rdsCleared
    else rdsCleared.map fun r =>
      if rdDelivered deliveredTaskIds r then { r with is_delivered := some "True" } else r
  { db with tasks := tasksUpdated, review_details := rdsUpdated }

/-- What reconciliation does to one task row, as a single function of the
delivered-link set: rows are cleared to "False" and then flipped to "True"
exactly when the link set is nonempty and contains the row's link. -/
def reconTask (links : List String) (t : TaskRow) : TaskRow :=
  if !links.isEmpty && taskLinkDelivered links t then
    { t with is_delivered := some "True" }
  else
    { t with is_delivered := some "False" }

/-- What reconciliation does to one review-detail row, given the delivered
task-id set. -/
def reconRD (ids : List Int) (r : ReviewDetailRow) : ReviewDetailRow :=
  if !ids.isEmpty && rdDelivered ids r then
    { r with is_delivered := some "True" }
  else
    { r with is_delivered := some "False" }

/-- The delivered task-id set computed by `_update_is_delivered_status` (lines
559-569), expressed over the pre-reconciliation table: the query filters on
`colab_link`, which the flag updates do not touch. -/
def deliveredTaskIdsOf (db : DbState) : List Int :=
  let links := deliveredColabLinks db.work_items
  if links.isEmpty then []
  else (db.tasks.filter (taskLinkDelivered links)).map (·.id)

/-- Embedding of the module-level `calculate_week_number`
(data_sync_service.py lines 18-49). Dates are day ordinals; `none` stands for
a missing date or a date whose parse raised (both return Python `None`).
Python `//` is floor division, i.e. `Int.fdiv`. -/
def calculate_week_number (task_date : Option Int) (project_start_date : Option Int) :
    Option Int :=
  match task_date, project_start_date with
  | some t, some s => some (max 1 ((t - s).fdiv 7 + 1))
  | _, _ => none

/-- Embedding of the feedback-field block of
`ClientFeedbackService._update_work_items` (client_feedback_service.py lines
180-184): a feedback field is written only when it is present, truthy and not
the literal string "None" (pandas renders missing cells as "None" after
`astype(str)`). -/
def applyFeedbackFields (wi : WorkItemRow) (task_level_feedback error_categories : Option String) :
    WorkItemRow :=
  let wi1 :=
    match task_level_feedback with
    | some f => if f ≠ "" ∧ f ≠ "None" then { wi with task_level_feedback := some f } else wi
    | none => wi
  match error_categories with
  | some c => if c ≠ "" ∧ c ≠ "None" then { wi1 with error_categories := some c } else wi1
  | none => wi1

/-- Embedding of the verdict-driven `turing_status` transition of
`ClientFeedbackService._update_work_items` (client_feedback_service.py lines
186-193), applied to the upper-cased verdict. -/
def applyVerdictTransition (wi : WorkItemRow) (verdict_upper : String) : WorkItemRow :=
  if verdict_upper = "REJECTED" then { wi with turing_status := "Rework" }
  else if verdict_upper = "APPROVED" ∨ verdict_upper = "APPROVE" then
    { wi with turing_status := "Delivered" }
  else wi

/-- Embedding of the per-row update body of
`ClientFeedbackService._update_work_items` (client_feedback_service.py lines
164-206) for a feedback row whose trimmed `work_item_id` matched an existing
`WorkItem`: trim the verdict, write it to `client_status` verbatim, apply the
optional feedback fields, then the derived `turing_status` transition. -/
def applyFeedbackRow (wi : WorkItemRow) (verdict : String)
    (task_level_feedback error_categories : Option String) : WorkItemRow :=
  let v := pyStrip verdict
  applyVerdictTransition
    (applyFeedbackFields { wi with client_status := v } task_level_feedback error_categories)
    (pyUpper v)

/-- The fields `S3IngestionService.extract_work_items_from_json` extracts per
work item (s3_ingestion_service.py lines 225-233). -/
structure ExtractedWorkItem where
  work_item_id : String
  task_id : String
  annotator_id : Option Int := none
  colab_link : Option String := none
  ingestion_date : Option String := none
  delivery_date : Option Int := none
  json_filename : Option String := none
deriving DecidableEq, Repr

/-- The `ON CONFLICT (work_item_id) DO UPDATE SET` clause of
`S3IngestionService.insert_work_items` (s3_ingestion_service.py lines 259-269):
exactly `task_id`, `annotator_id`, `colab_link`, `ingestion_date`,
`delivery_date` and `json_filename` are overwritten; every other column of the
existing row is kept. -/
def upsertOverwrite (it : ExtractedWorkItem) (r : WorkItemRow) : WorkItemRow :=
  { r with
    task_id := it.task_id
    annotator_id := it.annotator_id
    colab_link := it.colab_link
    ingestion_date := it.ingestion_date
    delivery_date := it.delivery_date
    json_filename := it.json_filename }

/-- One row of the PostgreSQL upsert issued by
`S3IngestionService.insert_work_items`: update in place on key conflict,
otherwise insert a fresh row with the model's column defaults
(`turing_status = "Delivered"`, `client_status = "Pending"`, empty feedback). -/
def upsertWorkItem (db : List WorkItemRow) (it : ExtractedWorkItem) : List WorkItemRow :=
  if it.work_item_id ∈ db.map (·.work_item_id) then
    db.map fun r => if r.work_item_id = it.work_item_id then upsertOverwrite it r else r
  else
    db ++ [{ work_item_id := it.work_item_id, task_id := it.task_id,
             annotator_id := it.annotator_id, colab_link := it.colab_link,
             ingestion_date := it.ingestion_date, delivery_date := it.delivery_date,
             json_filename := it.json_filename }]

/-- Embedding of `S3IngestionService.insert_work_items`
(s3_ingestion_service.py lines 244-282): the multi-row `INSERT ... ON CONFLICT
DO UPDATE` applied row by row. -/
def insert_work_items (db : List WorkItemRow) (items : List ExtractedWorkItem) :
    List WorkItemRow :=
  items.foldl upsertWorkItem db

/-- Batch size used by the table syncs (`batch_size = 5000` in
`sync_review_detail` and `sync_task`). -/
def syncBatchSize : Nat := 5000

/-- Fuel-driven worker for `chunked` (the fuel keeps the recursion structural
so that concrete instances evaluate; `chunked` passes the list length, which
always suffices). -/
def chunkedGo {α : Type} (bs : Nat) : Nat → List α → List (List α)
  | _, [] => []
  | 0, _ :: _ => []
  | fuel + 1, a :: rest =>
    if bs = 0 then []
    else ((a :: rest).take bs) :: chunkedGo bs fuel ((a :: rest).drop bs)

/-- Python `for i in range(0, len(data), batch_size): data[i:i+batch_size]`. -/
def chunked {α : Type} (bs : Nat) (l : List α) : List (List α) :=
  chunkedGo bs l.length l

/-- Committed-state semantics of the batched insert loop shared by
`sync_review_detail` (s3 lines 240-248) and `sync_task` (lines 375-383): each
batch is followed by its own `session.commit()`, so once a batch commits it
stays committed even if a later batch raises. `failAt = some i` models an
exception while inserting batch `i`; the returned Bool is the sync function's
return value (`False` on the exception path). -/
def runTableReplaceGo {α : Type} (failAt : Option Nat) :
    List α → Nat → List (List α) → List α × Bool
  | tbl, _, [] => (tbl, true)
  | tbl, i, b :: rest =>
    if failAt = some i then (tbl, false)
    else runTableReplaceGo failAt (tbl ++ b) (i + 1) rest

/-- Embedding of the per-table replace of `sync_review_detail`
(data_sync_service.py lines 234-248) and `sync_task` (lines 369-383): the
`DELETE` is committed first (line 238 / 373 ends with `session.commit()`), so
the table starts empty regardless of `oldRows`; the new data is then inserted
and committed in fixed-size batches. The result is the committed table content
paired with the success flag. -/
def runTableReplace {α : Type} (oldRows newData : List α) (batchSize : Nat)
    (failAt : Option Nat) : List α × Bool :=
  let _ := oldRows
  runTableReplaceGo failAt [] 0 (chunked batchSize newData)

/-- Stable insertion of an element into a key-sorted list: the new element goes
after existing elements it compares less-or-equal with, which models the
stability of Python `list.sort`. -/
def insertSortedBy {α : Type} (le : α → α → Bool) (a : α) : List α → List α
  | [] => [a]
  | b :: rest => if le b a then b :: insertSortedBy le a rest else a :: b :: rest

/-- Python `list.sort(key=...)`: a stable ascending sort. -/
def pySortBy {α : Type} (le : α → α → Bool) (l : List α) : List α :=
  l.foldl (fun acc x => insertSortedBy le x acc) []

/-- Per-dimension accumulator of the aggregation processors
(postgres_query_service.py lines 120-126 and 224-230). `ι` is the task
identifier type: `Int` (`conversation_id`) for the pre-delivery processor,
`String` (`work_item.task_id`) for the client-delivery one. -/
structure DimAcc (ι : Type) where
  name : Option String := none
  conversation_ids : List ι := []
  scores : List ℚ := []
  task_scores : List (ι × ℚ) := []
  rework_counts : List (ι × Int) := []
deriving DecidableEq, Repr

/-- Mutations applied to one dimension accumulator for one row
(postgres_query_service.py lines 144-156 / 248-260): record the name, add the
identifier to the distinct set, store the task score and rework count keyed by
identifier (only when the identifier is present), and append the score. -/
def dimAccUpdate {ι : Type} [DecidableEq ι] (n : String) (idOpt : Option ι)
    (score task_score : Option ℚ) (rework : Option Int) (acc : DimAcc ι) : DimAcc ι :=
  let acc := { acc with name := some n }
  let acc :=
    match idOpt with
    | some cid =>
      let acc := { acc with conversation_ids := pySetAdd acc.conversation_ids cid }
      let acc :=
        match task_score with
        | some ts => { acc with task_scores := dictSet acc.task_scores cid ts }
        | none => acc
      match rework with
      | some rc => { acc with rework_counts := dictSet acc.rework_counts cid rc }
      | none => acc
    | none => acc
  match score with
  | some sc => { acc with scores := acc.scores ++ [sc] }
  | none => acc

/-- The nested-defaultdict write `grouped_data[group_value][name]` followed by
the accumulator mutations: fetch (or create) the group's dimension dict and
the dimension's accumulator, update, and write both levels back. -/
def groupedInsert {γ ι : Type} [DecidableEq γ] [DecidableEq ι]
    (gd : List (γ × List (String × DimAcc ι))) (g : γ) (n : String)
    (idOpt : Option ι) (score task_score : Option ℚ) (rework : Option Int) :
    List (γ × List (String × DimAcc ι)) :=
  let dims := (dictGet? gd g).getD []
  let acc := (dictGet? dims n).getD {}
  dictSet gd g (dictSet dims n (dimAccUpdate n idOpt score task_score rework acc))

/-- One processed row of the pre-delivery aggregation: a `ReviewDetail` row
with the `Task.rework_count` attribute attached by the outer join
(postgres_query_service.py lines 343-347). -/
structure AggInputRow where
  domain : Option String := none
  human_role_id : Option Int := none
  reviewer_id : Option Int := none
  conversation_id : Option Int := none
  name : Option String := none
  score : Option ℚ := none
  task_score : Option ℚ := none
  rework_count : Option Int := none
deriving DecidableEq, Repr

/-- One row of the client-delivery aggregation queries
(postgres_query_service.py lines 820-827): `ReviewDetail` columns joined with
`WorkItem.task_id` and `Task.rework_count`. -/
structure CDRow where
  domain : Option String := none
  human_role_id : Option Int := none
  reviewer_id : Option Int := none
  name : Option String := none
  score : Option ℚ := none
  task_score : Option ℚ := none
  task_id : Option String := none
  rework_count : Option Int := none
deriving DecidableEq, Repr

/-- The per-row step of `_process_aggregation_results`
(postgres_query_service.py lines 128-156): a row contributes only when its
dimension name is truthy and a member of the allow-list. -/
def aggStep {γ : Type} [DecidableEq γ] (allowed : List String)
    (groupOf : AggInputRow → γ)
    (gd : List (γ × List (String × DimAcc Int))) (row : AggInputRow) :
    List (γ × List (String × DimAcc Int)) :=
  match row.name with
  | some n =>
    if n ≠ "" ∧ n ∈ allowed then
      groupedInsert gd (groupOf row) n row.conversation_id row.score row.task_score
        row.rework_count
    else gd
  | none => gd

/-- The per-row step of `_process_client_delivery_aggregation`
(postgres_query_service.py lines 232-260), keyed by `work_item.task_id`. -/
def cdStep {γ : Type} [DecidableEq γ] (allowed : List String)
    (groupOf : CDRow → γ)
    (gd : List (γ × List (String × DimAcc String))) (row : CDRow) :
    List (γ × List (String × DimAcc String)) :=
  match row.name with
  | some n =>
    if n ≠ "" ∧ n ∈ allowed then
      groupedInsert gd (groupOf row) n row.task_id row.score row.task_score row.rework_count
    else gd
  | none => gd

/-- Per-dimension output record (postgres_query_service.py lines 177-181). -/
structure QualityDim where
  name : Option String
  average_score : Option ℚ
  task_count : Nat
deriving DecidableEq, Repr

/-- Per-group output record of the aggregation processors
(postgres_query_service.py lines 197-208). `group` carries the value of the
grouping key (added as `item[group_key]` in the source). -/
structure GroupAgg (γ : Type) where
  group : γ
  task_count : Nat
  average_task_score : Option ℚ
  total_rework_count : Int
  average_rework_count : ℚ
  quality_dimensions : List QualityDim
deriving DecidableEq, Repr, Inhabited

/-- Per-dimension conversion (postgres_query_service.py lines 166-181). -/
def dimOutput {ι : Type} (acc : DimAcc ι) : QualityDim :=
  let avg : Option ℚ :=
    if acc.scores.isEmpty then none
    else some (acc.scores.sum / (acc.scores.length : ℚ))
  { name := acc.name
    average_score := avg.map roundTo2
    task_count := acc.conversation_ids.length }

/-- Group-level running totals of the conversion loop
(postgres_query_service.py lines 161-181). -/
structure GroupTotals (ι : Type) where
  all_ids : List ι := []
  all_task_scores : List (ι × ℚ) := []
  all_rework_counts : List (ι × Int) := []
  quality_dimensions : List QualityDim := []
deriving DecidableEq, Repr

/-- The conversion loop over a group's dimensions: union of distinct ids,
dict-merge (deduplication by identifier) of task scores and rework counts, and
one appended `QualityDim` per dimension. -/
def groupTotals {ι : Type} [DecidableEq ι] (dims : List (String × DimAcc ι)) :
    GroupTotals ι :=
  dims.foldl
    (fun st p =>
      { all_ids := p.2.conversation_ids.foldl pySetAdd st.all_ids
        all_task_scores := dictMerge st.all_task_scores p.2.task_scores
        all_rework_counts := dictMerge st.all_rework_counts p.2.rework_counts
        quality_dimensions := st.quality_dimensions ++ [dimOutput p.2] })
    {}

/-- Final group record (postgres_query_service.py lines 183-208): sort the
dimensions by name, average the deduplicated task scores, and sum/average the
deduplicated rework counts. -/
def finalizeGroup {γ ι : Type} [DecidableEq ι] (g : γ)
    (dims : List (String × DimAcc ι)) : GroupAgg γ :=
  let st := groupTotals dims
  let qds := pySortBy (fun a b => pyStrLe (a.name.getD "") (b.name.getD "")) st.quality_dimensions
  let task_score_values := st.all_task_scores.map Prod.snd
  let rework_values := st.all_rework_counts.map Prod.snd
  { group := g
    task_count := st.all_ids.length
    average_task_score :=
      if task_score_values.isEmpty then none
      else some (roundTo2 (task_score_values.sum / (task_score_values.length : ℚ)))
    total_rework_count := if rework_values.isEmpty then 0 else rework_values.sum
    average_rework_count :=
      if rework_values.isEmpty then 0
      else roundTo2 ((rework_values.map (fun z => (z : ℚ))).sum / (rework_values.length : ℚ))
    quality_dimensions := qds }

/-- Embedding of `PostgresQueryService._process_aggregation_results`
(postgres_query_service.py lines 107-210). `groupOf` plays the role of
`getattr(row, group_key)`; the overall variant passes a constant function
(`group_value = 'overall'`). -/
def processAggregationResults {γ : Type} [DecidableEq γ] (allowed : List String)
    (groupOf : AggInputRow → γ) (results : List AggInputRow) : List (GroupAgg γ) :=
  ((results.foldl (aggStep allowed groupOf) []).map fun p => finalizeGroup p.1 p.2)

/-- Embedding of `PostgresQueryService._process_client_delivery_aggregation`
(postgres_query_service.py lines 212-314), identical in shape but keyed by
`work_item.task_id`. -/
def processClientDeliveryAggregation {γ : Type} [DecidableEq γ] (allowed : List String)
    (groupOf : CDRow → γ) (results : List CDRow) : List (GroupAgg γ) :=
  ((results.foldl (cdStep allowed groupOf) []).map fun p => finalizeGroup p.1 p.2)

/-- Embedding of `PostgresQueryService._get_allowed_quality_dimensions`
(postgres_query_service.py lines 27-63): the warehouse fetch either yields the
enabled dimension names (possibly null, deduplicated, truthy only) or raises,
in which case the exception is caught and the empty set is returned. -/
def getAllowedQualityDimensions (fetch : Except String (List (Option String))) :
    List String :=
  match fetch with
  | .ok rows =>
    pyDistinct (rows.filterMap fun o =>
      match o with
      | some s => if s = "" then none else some s
      | none => none)
  | .error _ => []

/-- The filter dictionary built by the route layer (stats.py lines 54-62):
`min_task_count` is forwarded by every stats endpoint alongside the other
filters. -/
structure Filters where
  domain : Option String := none
  reviewer : Option Int := none
  trainer : Option Int := none
  quality_dimension : Option String := none
  min_score : Option ℚ := none
  max_score : Option ℚ := none
  min_task_count : Option Nat := none
deriving DecidableEq, Repr

/-- The filter chain applied to the pre-delivery `ReviewDetail` query
(postgres_query_service.py lines 327-339 / 430-442): each filter is applied
only when present (and truthy, for the string filters); SQL equality and
comparisons never match NULL columns. `min_task_count` does not appear in the
chain — the service never reads it. -/
def rdPassesFilters (f : Filters) (rd : ReviewDetailRow) : Bool :=
  (match f.domain with
   | some d => if d = "" then true else decide (rd.domain = some d)
   | none => true) &&
  (match f.reviewer with
   | some k => decide (rd.reviewer_id = some k)
   | none => true) &&
  (match f.trainer with
   | some k => decide (rd.human_role_id = some k)
   | none => true) &&
  (match f.quality_dimension with
   | some q => if q = "" then true else decide (rd.name = some q)
   | none => true) &&
  (match f.min_score with
   | some m => (match rd.score with | some s => decide (m ≤ s) | none => false)
   | none => true) &&
  (match f.max_score with
   | some m => (match rd.score with | some s => decide (s ≤ m) | none => false)
   | none => true)

/-- Projection of a joined (ReviewDetail, Task.rework_count) result row into
the attribute set the processor reads. -/
def toAggRow (rd : ReviewDetailRow) (rework : Option Int) : AggInputRow :=
  { domain := rd.domain, human_role_id := rd.human_role_id,
    reviewer_id := rd.reviewer_id, conversation_id := rd.conversation_id,
    name := rd.name, score := rd.score, task_score := rd.task_score,
    rework_count := rework }

/-- The pre-delivery base query shared by the overall/domain/trainer/reviewer
aggregations (postgres_query_service.py lines 322-347): `ReviewDetail` rows
with `is_delivered = 'False'`, the optional filters, and `Task.rework_count`
attached through the outer join on `conversation_id = Task.id` (`Task.id` is
the primary key, so at most one task matches). -/
def preDeliveryRows (rds : List ReviewDetailRow) (tasks : List TaskRow) (f : Filters) :
    List AggInputRow :=
  (rds.filter fun rd => decide (rd.is_delivered = some "False") && rdPassesFilters f rd).map
    fun rd =>
      toAggRow rd
        ((tasks.find? fun t => decide (rd.conversation_id = some t.id)).bind (·.rework_count))

/-- Embedding of `PostgresQueryService.get_domain_aggregation`
(postgres_query_service.py lines 419-465): process the filtered pre-delivery
rows grouped by `domain`, then sort by domain name (the source sorts with key
`x.get('domain', '')`; a NULL domain group would make the Python sort raise —
the properties proved here use non-null domains). -/
def get_domain_aggregation (fetch : Except String (List (Option String)))
    (rds : List ReviewDetailRow) (tasks : List TaskRow) (f : Filters) :
    List (GroupAgg (Option String)) :=
  let rows := preDeliveryRows rds tasks f
  let aggregated :=
    processAggregationResults (getAllowedQualityDimensions fetch) (fun r => r.domain) rows
  pySortBy (fun a b => pyStrLe (a.group.getD "") (b.group.getD "")) aggregated

/-- Result record of `get_overall_aggregation` (postgres_query_service.py
lines 352-414). The early-return branch (line 352) omits the score/rework
keys; they are modeled with their defaults. -/
structure OverallResult where
  task_count : Nat
  reviewer_count : Nat
  trainer_count : Nat
  domain_count : Nat
  delivered_tasks : Nat
  delivered_files : Nat
  work_items_count : Nat
  average_task_score : Option ℚ := none
  total_rework_count : Int := 0
  average_rework_count : ℚ := 0
  quality_dimensions : List QualityDim := []
deriving DecidableEq, Repr

/-- Embedding of `PostgresQueryService.get_overall_aggregation`
(postgres_query_service.py lines 316-417): aggregate the filtered pre-delivery
rows into a single bucket; when no bucket was produced return the zero record;
otherwise override `task_count` with the distinct count of undelivered tasks
from the `Task` table and add the distinct reviewer/trainer/domain and
work-item counts (Python truthiness: id 0 and empty-string domains do not
count). -/
def get_overall_aggregation (fetch : Except String (List (Option String)))
    (rds : List ReviewDetailRow) (tasks : List TaskRow) (wis : List WorkItemRow)
    (f : Filters) : OverallResult :=
  let results := preDeliveryRows rds tasks f
  let aggregated :=
    processAggregationResults (getAllowedQualityDimensions fetch) (fun _ => "overall") results
  match aggregated with
  | [] =>
    { task_count := 0, reviewer_count := 0, trainer_count := 0, domain_count := 0,
      delivered_tasks := 0, delivered_files := 0, work_items_count := 0,
      quality_dimensions := [] }
  | overall :: _ =>
    let unique_reviewers := pyDistinct (results.filterMap fun r =>
      match r.reviewer_id with
      | some k => if k = 0 then none else some k
      | none => none)
    let unique_trainers := pyDistinct (results.filterMap fun r =>
      match r.human_role_id with
      | some k => if k = 0 then none else some k
      | none => none)
    let unique_domains := pyDistinct (results.filterMap fun r =>
      match r.domain with
      | some d => if d = "" then none else some d
      | none => none)
    let actual_task_count :=
      (pyDistinct ((tasks.filter fun t =>
        decide (t.is_delivered = some "False") &&
        (match f.domain with
         | some d => if d = "" then true else decide (t.domain = some d)
         | none => true) &&
        (match f.trainer with
         | some k => decide (t.current_user_id = some k)
         | none => true)).map (·.id))).length
    { task_count := actual_task_count
      reviewer_count := unique_reviewers.length
      trainer_count := unique_trainers.length
      domain_count := unique_domains.length
      delivered_tasks := (pyDistinct (wis.map (·.task_id))).length
      delivered_files := (pyDistinct (wis.filterMap (·.json_filename))).length
      work_items_count := (pyDistinct (wis.map (·.work_item_id))).length
      average_task_score := overall.average_task_score
      total_rework_count := overall.total_rework_count
      average_rework_count := overall.average_rework_count
      quality_dimensions := overall.quality_dimensions }

/-- JSON values, for the delivery manifests read from object storage. -/
inductive JVal where
  | null
  | bool (b : Bool)
  | num (n : Int)
  | str (s : String)
  | arr (elems : List JVal)
  | obj (fields : List (String × JVal))

/-- Python `dict.get(k)` on a parsed JSON object. -/
def JVal.get? (j : JVal) (k : String) : Option JVal :=
  match j with
  | .obj fields => (fields.find? fun p => p.1 == k).map (·.2)
  | _ => none

/-- Python truthiness of a JSON value (`if not x` tests). -/
def JVal.truthy : JVal → Bool
  | .null => false
  | .bool b => b
  | .num n => n != 0
  | .str s => s != ""
  | .arr l => !l.isEmpty
  | .obj fs => !fs.isEmpty

/-- String form of an identifier value, as stored into the string columns
(`work_item_id`, `task_id`). Manifest identifiers are strings; other truthy
values are stored through their printed form. -/
def JVal.asIdString : JVal → String
  | .str s => s
  | .num n => toString n
  | .bool b => if b then "True" else "False"
  | _ => ""

/-- The structural task-id sniffing of `extract_work_items_from_json`
(s3_ingestion_service.py lines 206-216): scan the work item's fields in order
for the first list-valued field whose first element is an object carrying a
`metadata` object with a `taskId` key. -/
def findTaskId (fields : List (String × JVal)) : Option JVal :=
  fields.findSome? fun p =>
    match p.2 with
    | .arr (first :: _) =>
      match first with
      | .obj ffs =>
        match (ffs.find? fun q => q.1 == "metadata").map (·.2) with
        | some (JVal.obj mfs) => (mfs.find? fun q => q.1 == "taskId").map (·.2)
        | _ => none
      | _ => none
    | _ => none

/-- Embedding of `S3IngestionService.extract_work_items_from_json`
(s3_ingestion_service.py lines 165-242). A work item missing a truthy
`workItemId`, or whose task id cannot be sniffed, is skipped with only a log
warning — it contributes nothing to the returned list and nothing to any
error list. A missing or non-list `workitems` key yields the empty list. -/
def extract_work_items_from_json (json_data : JVal) (ingestion_date : String)
    (json_filename : String) (delivery_date : Int) : List ExtractedWorkItem :=
  match json_data.get? "workitems" with
  | some (.arr workitems) =>
    workitems.filterMap fun workitem =>
      match workitem with
      | .obj wfields =>
        match JVal.get? workitem "workItemId" with
        | some wid =>
          if wid.truthy then
            let annotator_id : Option Int :=
              match JVal.get? workitem "metadata" with
              | some (.obj mfs) =>
                match (mfs.find? fun q => q.1 == "annotatorId").map (·.2) with
                | some (JVal.num n) => some n
                | _ => none
              | _ => none
            match findTaskId wfields with
            | some tid =>
              if tid.truthy then
                some { work_item_id := wid.asIdString
                       task_id := tid.asIdString
                       annotator_id := annotator_id
                       colab_link := some ("https://rlhf-v3.turing.com/prompt/" ++ tid.asIdString)
                       ingestion_date := some ingestion_date
                       delivery_date := some delivery_date
                       json_filename := some json_filename }
              else none
            | none => none
          else none
        | none => none
      | _ => none
  | some _ => []
  | none => []

/-- Python `key.split('/')[-1]`. -/
def fileName (key : String) : String :=
  ⟨key.data.foldl (fun acc c => if c = '/' then [] else acc ++ [c]) []⟩

/-- Result shape of `S3IngestionService.ingest_from_s3`
(s3_ingestion_service.py lines 382-388; `duration_seconds` is wall-clock time
and not modeled). -/
structure IngestionResult where
  status : String
  files_processed : Nat
  work_items_ingested : Nat
  errors : Option (List String)
deriving DecidableEq, Repr

/-- Embedding of `S3IngestionService.ingest_from_s3`
(s3_ingestion_service.py lines 284-405). The object store is abstracted by
`folders` (the partitions to process), `filesOf` (JSON keys with last-modified
timestamps) and `contentOf` (`none` models an unreadable or unparseable file;
a non-truthy parse — e.g. an empty object — also takes the error path, as in
`if not json_data`). Errors are appended only for unreadable files; skipped
work items inside a readable manifest are not recorded. After all folders the
status reconciliation runs on the updated work-item table. -/
def ingest_from_s3 (db : DbState) (folders : List String)
    (filesOf : String → List (String × Int)) (contentOf : String → Option JVal) :
    DbState × IngestionResult :=
  if folders.isEmpty then
    (db, { status := "completed", files_processed := 0, work_items_ingested := 0,
           errors := some ["No folders found"] })
  else
    let final := folders.foldl
      (fun st folder =>
        (filesOf folder).foldl
          (fun st file =>
            let (wtable, files, ingested, errors) := st
            let json_key := file.1
            let delivery_date := file.2
            let filename := fileName json_key
            match contentOf json_key with
            | some j =>
              if j.truthy then
                let work_items := extract_work_items_from_json j folder filename delivery_date
                let wtable' :=
                  if work_items.isEmpty then wtable else insert_work_items wtable work_items
                (wtable', files + 1, ingested + work_items.length, errors)
              else (wtable, files, ingested, errors ++ ["Could not read " ++ json_key])
            | none => (wtable, files, ingested, errors ++ ["Could not read " ++ json_key]))
          st)
      ((db.work_items, 0, 0, []) : List WorkItemRow × Nat × Nat × List String)
    let (wtable, files, ingested, errors) := final
    let db' := updateIsDeliveredStatus { db with work_items := wtable }
    (db',
     { status := if errors.isEmpty then "completed" else "completed_with_errors"
       files_processed := files
       work_items_ingested := ingested
       errors := if errors.isEmpty then none else some errors })

/-- Sample delivery manifest: two work items, the second missing its
`workItemId` (the end-to-end scenario of the spec). -/
def sampleManifest : JVal :=
  .obj [("workitems", .arr
    [.obj [("workItemId", .str "wi-1"),
           ("metadata", .obj [("annotatorId", .num 9)]),
           ("2d777b79-8c8d-4ddd-9603-d5050a8b5a4c",
             .arr [.obj [("metadata", .obj [("taskId", .str "task-1")])]])],
     .obj [("metadata", .obj [("annotatorId", .num 10)]),
           ("77e1a2c3-1111-4ddd-9603-d5050a8b5a4c",
             .arr [.obj [("metadata", .obj [("taskId", .str "task-2")])]])]])]

/-- The ingestion run of the end-to-end scenario: one folder, one manifest
file containing `sampleManifest`. -/
def sampleIngest : DbState × IngestionResult :=
  ingest_from_s3 ⟨[], [], []⟩ ["2025-09-01"]
    (fun _ => [("deliveries/2025-09-01/manifest.json", 100)])
    (fun _ => some sampleManifest)

/-! ### Helper lemmas for status reconciliation -/

theorem taskLinkDelivered_flag (links : List String) (t : TaskRow) (x : Option String) :
    taskLinkDelivered links { t with is_delivered := x } = taskLinkDelivered links t := rfl

theorem rdDelivered_flag (ids : List Int) (r : ReviewDetailRow) (x : Option String) :
    rdDelivered ids { r with is_delivered := x } = rdDelivered ids r := rfl

theorem reconTask_of_empty (links : List String) (t : TaskRow)
    (h : links.isEmpty = true) :
    reconTask links t = { t with is_delivered := some "False" } := by
  unfold reconTask
  rw [h]
  rfl

theorem reconTask_of_hit (links : List String) (t : TaskRow)
    (h1 : links.isEmpty = false) (h2 : taskLinkDelivered links t = true) :
    reconTask links t = { t with is_delivered := some "True" } := by
  unfold reconTask
  rw [h1, h2]
  rfl

theorem reconTask_of_miss (links : List String) (t : TaskRow)
    (h1 : links.isEmpty = false) (h2 : taskLinkDelivered links t = false) :
    reconTask links t = { t with is_delivered := some "False" } := by
  unfold reconTask
  rw [h1, h2]
  rfl

theorem reconRD_of_empty (ids : List Int) (r : ReviewDetailRow)
    (h : ids.isEmpty = true) :
    reconRD ids r = { r with is_delivered := some "False" } := by
  unfold reconRD
  rw [h]
  rfl

theorem reconRD_of_hit (ids : List Int) (r : ReviewDetailRow)
    (h1 : ids.isEmpty = false) (h2 : rdDelivered ids r = true) :
    reconRD ids r = { r with is_delivered := some "True" } := by
  unfold reconRD
  rw [h1, h2]
  rfl

theorem reconRD_of_miss (ids : List Int) (r : ReviewDetailRow)
    (h1 : ids.isEmpty = false) (h2 : rdDelivered ids r = false) :
    reconRD ids r = { r with is_delivered := some "False" } := by
  unfold reconRD
  rw [h1, h2]
  rfl

theorem reconTask_flag (links : List String) (t : TaskRow) :
    taskLinkDelivered links (reconTask links t) = taskLinkDelivered links t := by
  unfold reconTask
  split <;> rfl

theorem reconTask_id (links : List String) (t : TaskRow) :
    (reconTask links t).id = t.id := by
  unfold reconTask
  split <;> rfl

theorem reconTask_idem (links : List String) (t : TaskRow) :
    reconTask links (reconTask links t) = reconTask links t := by
  cases hl : links.isEmpty with
  | true =>
    rw [reconTask_of_empty links t hl, reconTask_of_empty links _ hl]
  | false =>
    cases hd : taskLinkDelivered links t with
    | true =>
      rw [reconTask_of_hit links t hl hd,
        reconTask_of_hit links _ hl (by rw [taskLinkDelivered_flag]; exact hd)]
    | false =>
      rw [reconTask_of_miss links t hl hd,
        reconTask_of_miss links _ hl (by rw [taskLinkDelivered_flag]; exact hd)]

theorem reconRD_idem (ids : List Int) (r : ReviewDetailRow) :
    reconRD ids (reconRD ids r) = reconRD ids r := by
  cases hl : ids.isEmpty with
  | true =>
    rw [reconRD_of_empty ids r hl, reconRD_of_empty ids _ hl]
  | false =>
    cases hd : rdDelivered ids r with
    | true =>
      rw [reconRD_of_hit ids r hl hd,
        reconRD_of_hit ids _ hl (by rw [rdDelivered_flag]; exact hd)]
    | false =>
      rw [reconRD_of_miss ids r hl hd,
        reconRD_of_miss ids _ hl (by rw [rdDelivered_flag]; exact hd)]

theorem updateIsDeliveredStatus_work_items (db : DbState) :
    (updateIsDeliveredStatus db).work_items = db.work_items := rfl

theorem updateIsDeliveredStatus_tasks (db : DbState) :
    (updateIsDeliveredStatus db).tasks
      = db.tasks.map (reconTask (deliveredColabLinks db.work_items)) := by
  show (let links := deliveredColabLinks db.work_items
        let tasksCleared := db.tasks.map fun t => { t with is_delivered := some "False" }
        if links.isEmpty then tasksCleared
        else tasksCleared.map fun t =>
          if taskLinkDelivered links t then { t with is_delivered := some "True" } else t)
      = db.tasks.map (reconTask (deliveredColabLinks db.work_items))
  cases hl : (deliveredColabLinks db.work_items).isEmpty with
  | true =>
    simp only [hl, if_true]
    apply List.map_congr_left
    intro t _
    rw [reconTask_of_empty _ t hl]
  | false =>
    simp only [hl, Bool.false_eq_true, if_false, List.map_map]
    apply List.map_congr_left
    intro t _
    show (if taskLinkDelivered (deliveredColabLinks db.work_items)
            { t with is_delivered := some "False" } then
            { t with is_delivered := some "True" }
          else { t with is_delivered := some "False" })
        = reconTask (deliveredColabLinks db.work_items) t
    rw [taskLinkDelivered_flag]
    cases hd : taskLinkDelivered (deliveredColabLinks db.work_items) t with
    | true => rw [reconTask_of_hit _ t hl hd]; rfl
    | false => rw [reconTask_of_miss _ t hl hd]; rfl

theorem filter_map_reconTask_ids (links : List String) (l : List TaskRow) :
    ((l.map (reconTask links)).filter (taskLinkDelivered links)).map (·.id)
      = (l.filter (taskLinkDelivered links)).map (·.id) := by
  induction l with
  | nil => rfl
  | cons t ts ih =>
    simp only [List.map_cons, List.filter_cons, reconTask_flag]
    cases h : taskLinkDelivered links t with
    | true => simp only [if_true, List.map_cons, reconTask_id, ih]
    | false => exact ih

theorem updateIsDeliveredStatus_review_details (db : DbState) :
    (updateIsDeliveredStatus db).review_details
      = db.review_details.map (reconRD (deliveredTaskIdsOf db)) := by
  show (let links := deliveredColabLinks db.work_items
        let tasksCleared := db.tasks.map fun t => { t with is_delivered := some "False" }
        let tasksUpdated :=
          if links.isEmpty then tasksCleared
          else tasksCleared.map fun t =>
            if taskLinkDelivered links t then { t with is_delivered := some "True" } else t
        let deliveredTaskIds :=
          if links.isEmpty then ([] : List Int)
          else (tasksUpdated.filter (taskLinkDelivered links)).map (·.id)
        let rdsCleared := db.review_details.map fun r => { r with is_delivered := some "False" }
        if deliveredTaskIds.isEmpty then rdsCleared
        else rdsCleared.map fun r =>
          if rdDelivered deliveredTaskIds r then { r with is_delivered := some "True" } else r)
      = db.review_details.map (reconRD (deliveredTaskIdsOf db))
  have htasks :
      (let links := deliveredColabLinks db.work_items
       let tasksCleared := db.tasks.map fun t => { t with is_delivered := some "False" }
       if links.isEmpty then tasksCleared
       else tasksCleared.map fun t =>
         if taskLinkDelivered links t then { t with is_delivered := some "True" } else t)
        = db.tasks.map (reconTask (deliveredColabLinks db.work_items)) :=
    updateIsDeliveredStatus_tasks db
  simp only at htasks ⊢
  rw [htasks]
  have hids :
      (if (deliveredColabLinks db.work_items).isEmpty then ([] : List Int)
       else (((db.tasks.map (reconTask (deliveredColabLinks db.work_items))).filter
          (taskLinkDelivered (deliveredColabLinks db.work_items))).map (·.id)))
        = deliveredTaskIdsOf db := by
    unfold deliveredTaskIdsOf
    cases hl : (deliveredColabLinks db.work_items).isEmpty with
    | true => simp only [hl, if_true]
    | false =>
      simp only [hl, Bool.false_eq_true, if_false]
      exact filter_map_reconTask_ids _ _
  rw [hids]
  cases he : (deliveredTaskIdsOf db).isEmpty with
  | true =>
    simp only [he, if_true]
    apply List.map_congr_left
    intro r _
    rw [reconRD_of_empty _ r he]
  | false =>
    simp only [he, Bool.false_eq_true, if_false, List.map_map]
    apply List.map_congr_left
    intro r _
    show (if rdDelivered (deliveredTaskIdsOf db) { r with is_delivered := some "False" } then
            { r with is_delivered := some "True" }
          else { r with is_delivered := some "False" })
        = reconRD (deliveredTaskIdsOf db) r
    rw [rdDelivered_flag]
    cases hd : rdDelivered (deliveredTaskIdsOf db) r with
    | true => rw [reconRD_of_hit _ r he hd]; rfl
    | false => rw [reconRD_of_miss _ r he hd]; rfl

theorem deliveredTaskIdsOf_update (db : DbState) :
    deliveredTaskIdsOf (updateIsDeliveredStatus db) = deliveredTaskIdsOf db := by
  unfold deliveredTaskIdsOf
  rw [updateIsDeliveredStatus_work_items, updateIsDeliveredStatus_tasks]
  cases hl : (deliveredColabLinks db.work_items).isEmpty with
  | true => simp only [hl, if_true]
  | false =>
    simp only [hl, Bool.false_eq_true, if_false]
    exact filter_map_reconTask_ids _ _

/-- C1. Status reconciliation is idempotent: running
`_update_is_delivered_status` twice on any database state, with no intervening
writes, yields exactly the same state (and hence the same `Task.is_delivered`
and `ReviewDetail.is_delivered` values) as running it once. -/
theorem statusReconciliation_idempotent (db : DbState) :
    updateIsDeliveredStatus (updateIsDeliveredStatus db) = updateIsDeliveredStatus db := by
  apply DbState.ext
  · rw [updateIsDeliveredStatus_work_items]
  · rw [updateIsDeliveredStatus_tasks (updateIsDeliveredStatus db),
      updateIsDeliveredStatus_work_items, updateIsDeliveredStatus_tasks db, List.map_map]
    apply List.map_congr_left
    intro t _
    exact reconTask_idem _ _
  · rw [updateIsDeliveredStatus_review_details (updateIsDeliveredStatus db),
      deliveredTaskIdsOf_update, updateIsDeliveredStatus_review_details db, List.map_map]
    apply List.map_congr_left
    intro r _
    exact reconRD_idem _ _

/-! ### C7: week-number derivation -/

/-- C7. The derived week number equals
`max 1 (floor((task_date - project_start_date) / 7 days) + 1)`; a task dated
exactly 7 days after the start date gets week 2; a task dated before the start
date is clamped to week 1; a missing date on either side yields `none`. -/
theorem calculateWeekNumber_spec :
    (∀ t s : Int, calculate_week_number (some t) (some s)
        = some (max 1 ((t - s).fdiv 7 + 1))) ∧
    (∀ s : Int, calculate_week_number (some (s + 7)) (some s) = some 2) ∧
    (∀ t s : Int, t < s → calculate_week_number (some t) (some s) = some 1) ∧
    (∀ d : Option Int, calculate_week_number none d = none) ∧
    (∀ d : Option Int, calculate_week_number d none = none) := by
  refine ⟨fun t s => rfl, ?_, ?_, ?_, ?_⟩
  · intro s
    show some (max 1 ((s + 7 - s).fdiv 7 + 1)) = some 2
    rw [show s + 7 - s = (7 : ℤ) by ring]
    decide
  · intro t s hts
    show some (max 1 ((t - s).fdiv 7 + 1)) = some 1
    have hlt : (t - s).fdiv 7 < 0 := by
      rw [Int.fdiv_eq_ediv _ (by norm_num)]
      exact Int.ediv_neg' (by omega) (by norm_num)
    rw [max_eq_left (by omega)]
  · intro d
    cases d <;> rfl
  · intro d
    cases d <;> rfl

theorem calculateWeekNumber_spec_witness :
    calculate_week_number (some 3) (some 10) = some 1 :=
  calculateWeekNumber_spec.2.2.1 3 10 (by decide)

/-! ### C6: verdict state machine -/

theorem applyFeedbackFields_client_status (wi : WorkItemRow) (tlf ec : Option String) :
    (applyFeedbackFields wi tlf ec).client_status = wi.client_status := by
  unfold applyFeedbackFields
  cases tlf <;> cases ec <;> dsimp only <;>
    first
    | rfl
    | (split <;> rfl)
    | (split <;> split <;> rfl)

theorem applyFeedbackFields_turing_status (wi : WorkItemRow) (tlf ec : Option String) :
    (applyFeedbackFields wi tlf ec).turing_status = wi.turing_status := by
  unfold applyFeedbackFields
  cases tlf <;> cases ec <;> dsimp only <;>
    first
    | rfl
    | (split <;> rfl)
    | (split <;> split <;> rfl)

theorem applyVerdictTransition_client_status (wi : WorkItemRow) (u : String) :
    (applyVerdictTransition wi u).client_status = wi.client_status := by
  unfold applyVerdictTransition
  split
  · rfl
  · split <;> rfl

/-- C6. For a matched feedback row: `client_status` is set to the trimmed
verdict verbatim; a verdict case-insensitively equal to "REJECTED" sets
`turing_status` to "Rework"; "APPROVED" or "APPROVE" (case-insensitively) sets
it to "Delivered"; any other verdict leaves `turing_status` unchanged. -/
theorem feedbackVerdict_state_machine (wi : WorkItemRow) (verdict : String)
    (tlf ec : Option String) :
    (applyFeedbackRow wi verdict tlf ec).client_status = pyStrip verdict ∧
    (pyUpper (pyStrip verdict) = "REJECTED" →
      (applyFeedbackRow wi verdict tlf ec).turing_status = "Rework") ∧
    (pyUpper (pyStrip verdict) = "APPROVED" ∨ pyUpper (pyStrip verdict) = "APPROVE" →
      (applyFeedbackRow wi verdict tlf ec).turing_status = "Delivered") ∧
    (pyUpper (pyStrip verdict) ≠ "REJECTED" → pyUpper (pyStrip verdict) ≠ "APPROVED" →
      pyUpper (pyStrip verdict) ≠ "APPROVE" →
      (applyFeedbackRow wi verdict tlf ec).turing_status = wi.turing_status) := by
  refine ⟨?_, ?_, ?_, ?_⟩
  · unfold applyFeedbackRow
    rw [applyVerdictTransition_client_status, applyFeedbackFields_client_status]
  · intro h
    unfold applyFeedbackRow applyVerdictTransition
    rw [if_pos h]
  · intro h
    unfold applyFeedbackRow applyVerdictTransition
    have hne : ¬ pyUpper (pyStrip verdict) = "REJECTED" := by
      cases h with
      | inl h1 => rw [h1]; decide
      | inr h2 => rw [h2]; decide
    rw [if_neg hne, if_pos h]
  · intro h1 h2 h3
    unfold applyFeedbackRow applyVerdictTransition
    rw [if_neg h1, if_neg (by
      intro hor
      cases hor with
      | inl ha => exact h2 ha
      | inr hb => exact h3 hb)]
    rw [applyFeedbackFields_turing_status]

theorem feedbackVerdict_state_machine_witness :
    (applyFeedbackRow { work_item_id := "w1", task_id := "t1" } " rejected " none none).turing_status
      = "Rework" :=
  (feedbackVerdict_state_machine { work_item_id := "w1", task_id := "t1" } " rejected "
    none none).2.1 (by decide)

/-! ### C5: upsert preserves feedback fields -/

theorem upsert_find_updated (it : ExtractedWorkItem) (l : List WorkItemRow)
    (r : WorkItemRow) (hr : r ∈ l) (hk : r.work_item_id = it.work_item_id)
    (hu : (l.map (·.work_item_id)).Nodup) :
    (l.map fun x => if x.work_item_id = it.work_item_id then upsertOverwrite it x else x).find?
        (fun x => decide (x.work_item_id = it.work_item_id))
      = some (upsertOverwrite it r) := by
  induction l with
  | nil => cases hr
  | cons a rest ih =>
    simp only [List.map_cons, List.nodup_cons] at hu ⊢
    by_cases ha : a.work_item_id = it.work_item_id
    · have har : r = a := by
        cases List.mem_cons.mp hr with
        | inl h => exact h
        | inr h =>
          exfalso
          apply hu.1
          rw [ha, ← hk]
          exact List.mem_map_of_mem (·.work_item_id) h
      rw [if_pos ha, har]
      exact List.find?_cons_of_pos _ (decide_eq_true ha)
    · rw [if_neg ha]
      have hrr : r ∈ rest := by
        cases List.mem_cons.mp hr with
        | inl h => exact absurd (h ▸ hk) ha
        | inr h => exact h
      rw [List.find?_cons_of_neg]
      · exact ih hrr hu.2
      · intro hcon
        exact ha (of_decide_eq_true hcon)

/-- C5. Upserting an extracted work item over an existing row with the same
`work_item_id` overwrites `task_id`, `annotator_id`, `colab_link`,
`ingestion_date`, `delivery_date` and `json_filename` from the new data while
keeping the existing `client_status`, `turing_status`, `task_level_feedback`
and `error_categories` — in particular a `client_status` of "Approved" set by
feedback survives a re-ingestion. -/
theorem upsert_preserves_feedback (db : List WorkItemRow) (it : ExtractedWorkItem)
    (r : WorkItemRow) (hr : r ∈ db) (hk : r.work_item_id = it.work_item_id)
    (hu : (db.map (·.work_item_id)).Nodup) :
    ∃ r' : WorkItemRow,
      (upsertWorkItem db it).find? (fun x => decide (x.work_item_id = it.work_item_id))
          = some r' ∧
      r'.task_id = it.task_id ∧ r'.annotator_id = it.annotator_id ∧
      r'.colab_link = it.colab_link ∧ r'.ingestion_date = it.ingestion_date ∧
      r'.delivery_date = it.delivery_date ∧ r'.json_filename = it.json_filename ∧
      r'.client_status = r.client_status ∧ r'.turing_status = r.turing_status ∧
      r'.task_level_feedback = r.task_level_feedback ∧
      r'.error_categories = r.error_categories := by
  refine ⟨upsertOverwrite it r, ?_, rfl, rfl, rfl, rfl, rfl, rfl, rfl, rfl, rfl, rfl⟩
  unfold upsertWorkItem
  rw [if_pos (List.mem_map.mpr ⟨r, hr, hk⟩)]
  exact upsert_find_updated it db r hr hk hu

theorem upsert_preserves_feedback_witness :
    ∃ r' : WorkItemRow,
      (upsertWorkItem
          [{ work_item_id := "w1", task_id := "t1", json_filename := some "a.json",
             client_status := "Approved", turing_status := "Delivered" }]
          { work_item_id := "w1", task_id := "t1", json_filename := some "b.json" }).find?
          (fun x => decide (x.work_item_id =
            ({ work_item_id := "w1", task_id := "t1",
               json_filename := some "b.json" } : ExtractedWorkItem).work_item_id))
          = some r' ∧
      r'.task_id = "t1" ∧ r'.annotator_id = none ∧
      r'.colab_link = none ∧ r'.ingestion_date = none ∧
      r'.delivery_date = none ∧ r'.json_filename = some "b.json" ∧
      r'.client_status = "Approved" ∧ r'.turing_status = "Delivered" ∧
      r'.task_level_feedback = none ∧ r'.error_categories = none :=
  upsert_preserves_feedback
    [{ work_item_id := "w1", task_id := "t1", json_filename := some "a.json",
       client_status := "Approved", turing_status := "Delivered" }]
    { work_item_id := "w1", task_id := "t1", json_filename := some "b.json" }
    { work_item_id := "w1", task_id := "t1", json_filename := some "a.json",
      client_status := "Approved", turing_status := "Delivered" }
    (by decide) (by decide) (by decide)

/-! ### C2: per-table replace is not all-or-nothing -/

theorem runTableReplaceGo_fail (batches : List (List Nat)) :
    ∀ (tbl : List Nat) (i k : Nat), k < batches.length →
      runTableReplaceGo (some (i + k)) tbl i batches
        = (tbl ++ ((batches.take k).flatten), false) := by
  induction batches with
  | nil =>
    intro tbl i k hk
    exact absurd hk (by simp)
  | cons b rest ih =>
    intro tbl i k hk
    cases k with
    | zero =>
      unfold runTableReplaceGo
      rw [if_pos (by rw [Nat.add_zero])]
      simp
    | succ k' =>
      unfold runTableReplaceGo
      rw [if_neg (by
        intro hcon
        exact absurd (Option.some.inj hcon) (by omega))]
      have := ih (tbl ++ b) (i + 1) k' (by simpa using hk)
      rw [show i + 1 + k' = i + (k' + 1) by omega] at this
      rw [this]
      simp

/-- C2 (counterexample). A sync whose first insert batch fails does not leave
the pre-sync rows in the table: the delete was already committed, so the
committed table is empty, not the old contents. -/
theorem tableReplace_not_atomic_cex :
    (runTableReplace [(0 : Nat)] [1] syncBatchSize (some 0)).1 ≠ [0] := by
  decide

/-- C2 (amended). The per-table sync commits the delete and then each
fixed-size batch separately: when batch `k` raises, the committed table holds
exactly the batches before `k` (possibly none) — not the pre-sync rows — and
the sync reports failure. -/
theorem tableReplace_failure_keeps_committed_batches (oldRows newData : List Nat)
    (bs k : Nat) (h : k < (chunked bs newData).length) :
    runTableReplace oldRows newData bs (some k)
      = (((chunked bs newData).take k).flatten, false) := by
  unfold runTableReplace
  have := runTableReplaceGo_fail (chunked bs newData) [] 0 k h
  rw [Nat.zero_add] at this
  rw [this]
  simp

theorem tableReplace_failure_keeps_committed_batches_witness :
    runTableReplace [(7 : Nat)] [1, 2] 1 (some 1) = ([1], false) :=
  tableReplace_failure_keeps_committed_batches [7] [1, 2] 1 1 (by decide)

/-! ### Helper lemmas for dicts, sorting and the aggregation fold -/

theorem mem_dictSet {κ β : Type} [DecidableEq κ] (d : List (κ × β)) (k : κ) (v : β)
    (p : κ × β) (hp : p ∈ dictSet d k v) : p ∈ d ∨ p = (k, v) := by
  unfold dictSet at hp
  split at hp
  · rcases List.mem_map.mp hp with ⟨q, hq, hqe⟩
    by_cases hqk : q.1 = k
    · right
      rw [if_pos hqk] at hqe
      rw [← hqe, hqk]
    · left
      rw [if_neg hqk] at hqe
      exact hqe ▸ hq
  · rcases List.mem_append.mp hp with h | h
    · exact Or.inl h
    · right
      simpa using h

theorem dictGet?_mem {κ β : Type} [DecidableEq κ] (d : List (κ × β)) (k : κ) (v : β)
    (h : dictGet? d k = some v) : (k, v) ∈ d := by
  induction d with
  | nil => cases h
  | cons p rest ih =>
    unfold dictGet? at h
    split at h
    · rename_i hpk
      have hv := Option.some.inj h
      have : (k, v) = p := by rw [← hpk, ← hv]
      rw [this]
      exact List.mem_cons_self _ _
    · exact List.mem_cons_of_mem _ (ih h)

theorem dictSet_ne_nil {κ β : Type} [DecidableEq κ] (d : List (κ × β)) (k : κ) (v : β) :
    dictSet d k v ≠ [] := by
  unfold dictSet
  split
  · rename_i hmem
    cases d with
    | nil => simp at hmem
    | cons p rest => simp
  · simp

theorem dictSet_nil {κ β : Type} [DecidableEq κ] (k : κ) (v : β) :
    dictSet ([] : List (κ × β)) k v = [(k, v)] := by
  unfold dictSet
  rw [if_neg (by simp)]
  rfl

theorem dictSet_singleton_same {κ β : Type} [DecidableEq κ] (k : κ) (w v : β) :
    dictSet [(k, w)] k v = [(k, v)] := by
  unfold dictSet
  rw [if_pos (by simp)]
  simp

theorem dictMerge_single {κ β : Type} [DecidableEq κ] (d : List (κ × β)) (k : κ) (v : β) :
    dictMerge d [(k, v)] = dictSet d k v := rfl

theorem mem_insertSortedBy {α : Type} (le : α → α → Bool) (a x : α) (l : List α) :
    x ∈ insertSortedBy le a l ↔ x = a ∨ x ∈ l := by
  induction l with
  | nil => simp [insertSortedBy]
  | cons b rest ih =>
    unfold insertSortedBy
    split
    · simp only [List.mem_cons, ih]
      tauto
    · simp only [List.mem_cons]

theorem mem_pySortBy {α : Type} (le : α → α → Bool) (l : List α) (x : α) :
    x ∈ pySortBy le l ↔ x ∈ l := by
  have aux : ∀ acc : List α,
      x ∈ l.foldl (fun acc y => insertSortedBy le y acc) acc ↔ x ∈ acc ∨ x ∈ l := by
    induction l with
    | nil => intro acc; simp
    | cons b rest ih =>
      intro acc
      simp only [List.foldl_cons]
      rw [ih, mem_insertSortedBy]
      simp only [List.mem_cons]
      tauto
  unfold pySortBy
  rw [aux []]
  simp

theorem dimAccUpdate_name {ι : Type} [DecidableEq ι] (n : String) (idOpt : Option ι)
    (score task_score : Option ℚ) (rework : Option Int) (acc : DimAcc ι) :
    (dimAccUpdate n idOpt score task_score rework acc).name = some n := by
  unfold dimAccUpdate
  cases idOpt <;> cases score <;> cases task_score <;> cases rework <;> rfl

theorem dimAccUpdate_task_scores {ι : Type} [DecidableEq ι] (n : String) (c : ι)
    (score : Option ℚ) (v : ℚ) (rework : Option Int) (acc : DimAcc ι) :
    (dimAccUpdate n (some c) score (some v) rework acc).task_scores
      = dictSet acc.task_scores c v := by
  unfold dimAccUpdate
  cases score <;> cases rework <;> rfl

theorem groupTotals_qds {ι : Type} [DecidableEq ι] (dims : List (String × DimAcc ι)) :
    (groupTotals dims).quality_dimensions = dims.map fun q => dimOutput q.2 := by
  have aux : ∀ st0 : GroupTotals ι,
      (dims.foldl
        (fun st p =>
          { all_ids := p.2.conversation_ids.foldl pySetAdd st.all_ids
            all_task_scores := dictMerge st.all_task_scores p.2.task_scores
            all_rework_counts := dictMerge st.all_rework_counts p.2.rework_counts
            quality_dimensions := st.quality_dimensions ++ [dimOutput p.2] }) st0).quality_dimensions
        = st0.quality_dimensions ++ dims.map fun q => dimOutput q.2 := by
    induction dims with
    | nil => intro st0; simp
    | cons d rest ih =>
      intro st0
      simp only [List.foldl_cons, List.map_cons]
      rw [ih]
      simp [List.append_assoc]
  simpa using aux {}

theorem aggFold_allow {γ : Type} [DecidableEq γ] (allowed : List String)
    (groupOf : AggInputRow → γ) (rows : List AggInputRow) :
    ∀ gd0 : List (γ × List (String × DimAcc Int)),
      (∀ p ∈ gd0, ∀ q ∈ (p : γ × List (String × DimAcc Int)).2,
        (q : String × DimAcc Int).2.name = some q.1 ∧ q.1 ∈ allowed) →
      ∀ p ∈ rows.foldl (aggStep allowed groupOf) gd0,
        ∀ q ∈ (p : γ × List (String × DimAcc Int)).2,
          (q : String × DimAcc Int).2.name = some q.1 ∧ q.1 ∈ allowed := by
  induction rows with
  | nil => intro gd0 h0; exact h0
  | cons row rest ih =>
    intro gd0 h0
    simp only [List.foldl_cons]
    apply ih
    intro p hp q hq
    unfold aggStep at hp
    cases hrn : row.name with
    | none =>
      rw [hrn] at hp
      exact h0 p hp q hq
    | some n =>
      simp only [hrn] at hp
      by_cases hacc : n ≠ "" ∧ n ∈ allowed
      · rw [if_pos hacc] at hp
        unfold groupedInsert at hp
        rcases mem_dictSet _ _ _ p hp with hold | heq
        · exact h0 p hold q hq
        · subst heq
          rcases mem_dictSet _ _ _ q hq with hq_old | hq_new
          · cases hget : dictGet? gd0 (groupOf row) with
            | none =>
              rw [hget] at hq_old
              cases hq_old
            | some dims0 =>
              rw [hget] at hq_old
              exact h0 _ (dictGet?_mem _ _ _ hget) q hq_old
          · rw [hq_new]
            exact ⟨dimAccUpdate_name _ _ _ _ _ _, hacc.2⟩
      · rw [if_neg hacc] at hp
        exact h0 p hp q hq

theorem cdFold_allow {γ : Type} [DecidableEq γ] (allowed : List String)
    (groupOf : CDRow → γ) (rows : List CDRow) :
    ∀ gd0 : List (γ × List (String × DimAcc String)),
      (∀ p ∈ gd0, ∀ q ∈ (p : γ × List (String × DimAcc String)).2,
        (q : String × DimAcc String).2.name = some q.1 ∧ q.1 ∈ allowed) →
      ∀ p ∈ rows.foldl (cdStep allowed groupOf) gd0,
        ∀ q ∈ (p : γ × List (String × DimAcc String)).2,
          (q : String × DimAcc String).2.name = some q.1 ∧ q.1 ∈ allowed := by
  induction rows with
  | nil => intro gd0 h0; exact h0
  | cons row rest ih =>
    intro gd0 h0
    simp only [List.foldl_cons]
    apply ih
    intro p hp q hq
    unfold cdStep at hp
    cases hrn : row.name with
    | none =>
      rw [hrn] at hp
      exact h0 p hp q hq
    | some n =>
      simp only [hrn] at hp
      by_cases hacc : n ≠ "" ∧ n ∈ allowed
      · rw [if_pos hacc] at hp
        unfold groupedInsert at hp
        rcases mem_dictSet _ _ _ p hp with hold | heq
        · exact h0 p hold q hq
        · subst heq
          rcases mem_dictSet _ _ _ q hq with hq_old | hq_new
          · cases hget : dictGet? gd0 (groupOf row) with
            | none =>
              rw [hget] at hq_old
              cases hq_old
            | some dims0 =>
              rw [hget] at hq_old
              exact h0 _ (dictGet?_mem _ _ _ hget) q hq_old
          · rw [hq_new]
            exact ⟨dimAccUpdate_name _ _ _ _ _ _, hacc.2⟩
      · rw [if_neg hacc] at hp
        exact h0 p hp q hq

/-! ### C4: allow-list filtering of quality dimensions -/

/-- C4. In every aggregation (overall/domain/reviewer/trainer via the generic
grouping function, pre-delivery and client-delivery processors alike), every
entry of a group's `quality_dimensions` carries a name that is a member of the
externally supplied allow-list — a dimension name outside the allow-list never
appears, regardless of which rows exist in the store. -/
theorem aggregation_allowlist_filter :
    (∀ (γ : Type) [DecidableEq γ] (allowed : List String) (groupOf : AggInputRow → γ)
       (results : List AggInputRow),
      ∀ g ∈ processAggregationResults allowed groupOf results,
        ∀ qd ∈ (g : GroupAgg γ).quality_dimensions,
          ∃ n, qd.name = some n ∧ n ∈ allowed) ∧
    (∀ (γ : Type) [DecidableEq γ] (allowed : List String) (groupOf : CDRow → γ)
       (results : List CDRow),
      ∀ g ∈ processClientDeliveryAggregation allowed groupOf results,
        ∀ qd ∈ (g : GroupAgg γ).quality_dimensions,
          ∃ n, qd.name = some n ∧ n ∈ allowed) := by
  constructor
  · intro γ _ allowed groupOf results g hg qd hqd
    unfold processAggregationResults at hg
    rcases List.mem_map.mp hg with ⟨p, hp, hfin⟩
    have hinv := aggFold_allow allowed groupOf results [] (by intro p hp; cases hp) p hp
    rw [← hfin] at hqd
    unfold finalizeGroup at hqd
    rw [mem_pySortBy] at hqd
    rw [groupTotals_qds] at hqd
    rcases List.mem_map.mp hqd with ⟨q, hq, hout⟩
    rcases hinv q hq with ⟨hname, hmem⟩
    exact ⟨q.1, by rw [← hout]; exact hname, hmem⟩
  · intro γ _ allowed groupOf results g hg qd hqd
    unfold processClientDeliveryAggregation at hg
    rcases List.mem_map.mp hg with ⟨p, hp, hfin⟩
    have hinv := cdFold_allow allowed groupOf results [] (by intro p hp; cases hp) p hp
    rw [← hfin] at hqd
    unfold finalizeGroup at hqd
    rw [mem_pySortBy] at hqd
    rw [groupTotals_qds] at hqd
    rcases List.mem_map.mp hqd with ⟨q, hq, hout⟩
    rcases hinv q hq with ⟨hname, hmem⟩
    exact ⟨q.1, by rw [← hout]; exact hname, hmem⟩

theorem aggregation_allowlist_filter_witness :
    ∃ n, ({ name := some "accuracy", average_score := some 4, task_count := 1 } :
        QualityDim).name = some n ∧ n ∈ ["accuracy"] := by
  have h := aggregation_allowlist_filter.1 Unit ["accuracy"] (fun _ => ())
    [{ conversation_id := some 1, name := some "accuracy", score := some 4,
       task_score := some 4 }]
  exact h
    (processAggregationResults ["accuracy"] (fun _ => ())
      [{ conversation_id := some 1, name := some "accuracy", score := some 4,
         task_score := some 4 }]).head!
    (by with_unfolding_all decide)
    { name := some "accuracy", average_score := some 4, task_count := 1 }
    (by with_unfolding_all decide)

/-! ### C10: allow-list fetch failure degrades to the empty allow-list -/

theorem aggStep_empty_allowed {γ : Type} [DecidableEq γ] (groupOf : AggInputRow → γ)
    (gd : List (γ × List (String × DimAcc Int))) (row : AggInputRow) :
    aggStep [] groupOf gd row = gd := by
  unfold aggStep
  split
  · rw [if_neg (fun hcon => absurd hcon.2 (List.not_mem_nil _))]
  · rfl

theorem cdStep_empty_allowed {γ : Type} [DecidableEq γ] (groupOf : CDRow → γ)
    (gd : List (γ × List (String × DimAcc String))) (row : CDRow) :
    cdStep [] groupOf gd row = gd := by
  unfold cdStep
  split
  · rw [if_neg (fun hcon => absurd hcon.2 (List.not_mem_nil _))]
  · rfl

theorem processAgg_empty_allowed {γ : Type} [DecidableEq γ] (groupOf : AggInputRow → γ)
    (rows : List AggInputRow) :
    processAggregationResults ([] : List String) groupOf rows = [] := by
  unfold processAggregationResults
  have hfold : rows.foldl (aggStep [] groupOf) [] = [] := by
    induction rows with
    | nil => rfl
    | cons r rest ih =>
      simp only [List.foldl_cons, aggStep_empty_allowed]
      exact ih
  rw [hfold]
  rfl

theorem processCD_empty_allowed {γ : Type} [DecidableEq γ] (groupOf : CDRow → γ)
    (rows : List CDRow) :
    processClientDeliveryAggregation ([] : List String) groupOf rows = [] := by
  unfold processClientDeliveryAggregation
  have hfold : rows.foldl (cdStep [] groupOf) [] = [] := by
    induction rows with
    | nil => rfl
    | cons r rest ih =>
      simp only [List.foldl_cons, cdStep_empty_allowed]
      exact ih
  rw [hfold]
  rfl

/-- C10. When the fetch of the enabled quality dimensions fails, the exception
is swallowed and the empty allow-list is used: every aggregation call still
returns a result instead of raising, no dimension passes the membership
filter, so the aggregation produces no groups and the overall endpoint returns
its zero record with an empty `quality_dimensions` list. -/
theorem allowlistFailure_empty_dimensions :
    (∀ e : String, getAllowedQualityDimensions (.error e) = []) ∧
    (∀ (γ : Type) [DecidableEq γ] (groupOf : AggInputRow → γ) (rows : List AggInputRow)
       (e : String),
      processAggregationResults (getAllowedQualityDimensions (.error e)) groupOf rows = []) ∧
    (∀ (γ : Type) [DecidableEq γ] (groupOf : CDRow → γ) (rows : List CDRow) (e : String),
      processClientDeliveryAggregation (getAllowedQualityDimensions (.error e)) groupOf rows
        = []) ∧
    (∀ (e : String) (rds : List ReviewDetailRow) (tasks : List TaskRow)
       (wis : List WorkItemRow) (f : Filters),
      get_overall_aggregation (.error e) rds tasks wis f
        = { task_count := 0, reviewer_count := 0, trainer_count := 0, domain_count := 0,
            delivered_tasks := 0, delivered_files := 0, work_items_count := 0,
            quality_dimensions := [] }) ∧
    (∀ (e : String) (rds : List ReviewDetailRow) (tasks : List TaskRow) (f : Filters),
      get_domain_aggregation (.error e) rds tasks f = []) := by
  refine ⟨fun e => rfl, ?_, ?_, ?_, ?_⟩
  · intro γ _ groupOf rows e
    exact processAgg_empty_allowed groupOf rows
  · intro γ _ groupOf rows e
    exact processCD_empty_allowed groupOf rows
  · intro e rds tasks wis f
    unfold get_overall_aggregation
    simp only [show getAllowedQualityDimensions (.error e) = [] from rfl,
      processAgg_empty_allowed]
  · intro e rds tasks f
    unfold get_domain_aggregation
    simp only [show getAllowedQualityDimensions (.error e) = [] from rfl,
      processAgg_empty_allowed]
    rfl

/-! ### C3: average_task_score deduplicates by task identifier -/

theorem aggStep_ne_nil {γ : Type} [DecidableEq γ] (allowed : List String)
    (groupOf : AggInputRow → γ) (gd : List (γ × List (String × DimAcc Int)))
    (row : AggInputRow) (h : gd ≠ []) :
    aggStep allowed groupOf gd row ≠ [] := by
  unfold aggStep
  cases hrn : row.name with
  | none => simp only [hrn]; exact h
  | some n =>
    simp only [hrn]
    by_cases hacc : n ≠ "" ∧ n ∈ allowed
    · rw [if_pos hacc]
      unfold groupedInsert
      exact dictSet_ne_nil _ _ _
    · rw [if_neg hacc]
      exact h

theorem aggStep_accepted_ne_nil {γ : Type} [DecidableEq γ] (allowed : List String)
    (groupOf : AggInputRow → γ) (gd : List (γ × List (String × DimAcc Int)))
    (row : AggInputRow) (n : String) (hrn : row.name = some n) (hne : n ≠ "")
    (hmem : n ∈ allowed) :
    aggStep allowed groupOf gd row ≠ [] := by
  unfold aggStep
  simp only [hrn]
  rw [if_pos ⟨hne, hmem⟩]
  unfold groupedInsert
  exact dictSet_ne_nil _ _ _

theorem aggFold_ne_nil {γ : Type} [DecidableEq γ] (allowed : List String)
    (groupOf : AggInputRow → γ) (rows : List AggInputRow) :
    ∀ gd0 : List (γ × List (String × DimAcc Int)), gd0 ≠ [] →
      rows.foldl (aggStep allowed groupOf) gd0 ≠ [] := by
  induction rows with
  | nil => intro gd0 h; exact h
  | cons r rest ih =>
    intro gd0 h
    simp only [List.foldl_cons]
    exact ih _ (aggStep_ne_nil allowed groupOf gd0 r h)

theorem aggFold_accepted_ne_nil {γ : Type} [DecidableEq γ] (allowed : List String)
    (groupOf : AggInputRow → γ) :
    ∀ rows : List AggInputRow,
      (∃ r ∈ rows, ∃ n, r.name = some n ∧ n ≠ "" ∧ n ∈ allowed) →
      ∀ gd0 : List (γ × List (String × DimAcc Int)),
        rows.foldl (aggStep allowed groupOf) gd0 ≠ [] := by
  intro rows
  induction rows with
  | nil =>
    intro h gd0
    rcases h with ⟨r, hr, _⟩
    cases hr
  | cons r rest ih =>
    intro h gd0
    simp only [List.foldl_cons]
    rcases h with ⟨r', hr', n, hrn, hne, hmem⟩
    rcases List.mem_cons.mp hr' with heq | hmemr
    · subst heq
      exact aggFold_ne_nil allowed groupOf rest _
        (aggStep_accepted_ne_nil allowed groupOf gd0 r' n hrn hne hmem)
    · exact ih ⟨r', hmemr, n, hrn, hne, hmem⟩ (aggStep allowed groupOf gd0 r)

theorem dictGet?_singleton {κ β : Type} [DecidableEq κ] (k : κ) (v : β) :
    dictGet? [(k, v)] k = some v := by
  unfold dictGet?
  rw [if_pos rfl]

theorem aggStep_overall_inv (allowed : List String) (c : Int) (v : ℚ) (row : AggInputRow)
    (hcid : row.conversation_id = some c) (hts : row.task_score = some v)
    (gd0 : List (String × List (String × DimAcc Int)))
    (hinv : gd0 = [] ∨ ∃ dims, gd0 = [("overall", dims)] ∧ dims ≠ [] ∧
      ∀ q ∈ dims, (q : String × DimAcc Int).2.task_scores = [(c, v)]) :
    aggStep allowed (fun _ => "overall") gd0 row = gd0 ∨
    ∃ dims, aggStep allowed (fun _ => "overall") gd0 row = [("overall", dims)] ∧ dims ≠ [] ∧
      ∀ q ∈ dims, (q : String × DimAcc Int).2.task_scores = [(c, v)] := by
  unfold aggStep
  cases hrn : row.name with
  | none => left; simp only [hrn]
  | some n =>
    simp only [hrn]
    by_cases hacc : n ≠ "" ∧ n ∈ allowed
    · right
      rw [if_pos hacc]
      unfold groupedInsert
      simp only [hcid, hts]
      have hdims_prop :
          ∀ q ∈ (dictGet? gd0 "overall").getD [],
            (q : String × DimAcc Int).2.task_scores = [(c, v)] := by
        rcases hinv with hnil | ⟨dims0, hgd, _, hq⟩
        · subst hnil
          intro q hq'
          cases hq'
        · subst hgd
          rw [dictGet?_singleton]
          intro q hq'
          exact hq q hq'
      have hacc_ts :
          ((dictGet? ((dictGet? gd0 "overall").getD []) n).getD {}).task_scores = [] ∨
          ((dictGet? ((dictGet? gd0 "overall").getD []) n).getD {}).task_scores = [(c, v)] := by
        cases hget : dictGet? ((dictGet? gd0 "overall").getD []) n with
        | none => left; rfl
        | some acc0 =>
          right
          exact hdims_prop (n, acc0) (dictGet?_mem _ _ _ hget)
      have hupd :
          (dimAccUpdate n (some c) row.score (some v) row.rework_count
            ((dictGet? ((dictGet? gd0 "overall").getD []) n).getD {})).task_scores
            = [(c, v)] := by
        rw [dimAccUpdate_task_scores]
        rcases hacc_ts with hts0 | hts0
        · rw [hts0, dictSet_nil]
        · rw [hts0, dictSet_singleton_same]
      have hnewdims :
          ∀ q ∈ dictSet ((dictGet? gd0 "overall").getD []) n
              (dimAccUpdate n (some c) row.score (some v) row.rework_count
                ((dictGet? ((dictGet? gd0 "overall").getD []) n).getD {})),
            (q : String × DimAcc Int).2.task_scores = [(c, v)] := by
        intro q hq'
        rcases mem_dictSet _ _ _ q hq' with hold | hnew
        · exact hdims_prop q hold
        · rw [hnew]
          exact hupd
      refine ⟨_, ?_, dictSet_ne_nil _ _ _, hnewdims⟩
      rcases hinv with hnil | ⟨dims0, hgd, _, _⟩
      · subst hnil
        rw [dictSet_nil]
      · subst hgd
        rw [dictSet_singleton_same]
    · left
      rw [if_neg hacc]

theorem aggFold_overall_inv (allowed : List String) (c : Int) (v : ℚ) :
    ∀ rows : List AggInputRow,
      (∀ r ∈ rows, r.conversation_id = some c ∧ r.task_score = some v) →
      ∀ gd0 : List (String × List (String × DimAcc Int)),
        (gd0 = [] ∨ ∃ dims, gd0 = [("overall", dims)] ∧ dims ≠ [] ∧
          ∀ q ∈ dims, (q : String × DimAcc Int).2.task_scores = [(c, v)]) →
        (rows.foldl (aggStep allowed (fun _ => "overall")) gd0 = [] ∨
          ∃ dims, rows.foldl (aggStep allowed (fun _ => "overall")) gd0 = [("overall", dims)] ∧
            dims ≠ [] ∧
            ∀ q ∈ dims, (q : String × DimAcc Int).2.task_scores = [(c, v)]) := by
  intro rows
  induction rows with
  | nil => intro _ gd0 hinv; exact hinv
  | cons r rest ih =>
    intro hrows gd0 hinv
    simp only [List.foldl_cons]
    have hr := hrows r (List.mem_cons_self _ _)
    have hstep := aggStep_overall_inv allowed c v r hr.1 hr.2 gd0 hinv
    apply ih (fun r' hr' => hrows r' (List.mem_cons_of_mem _ hr'))
    rcases hstep with heq | hnew
    · rw [heq]
      exact hinv
    · exact Or.inr hnew

theorem groupTotals_absorb {ι : Type} [DecidableEq ι] (c : ι) (v : ℚ) :
    ∀ (dims : List (String × DimAcc ι)) (st0 : GroupTotals ι),
      st0.all_task_scores = [(c, v)] →
      (∀ q ∈ dims, (q : String × DimAcc ι).2.task_scores = [(c, v)]) →
      (dims.foldl
        (fun st p =>
          { all_ids := p.2.conversation_ids.foldl pySetAdd st.all_ids
            all_task_scores := dictMerge st.all_task_scores p.2.task_scores
            all_rework_counts := dictMerge st.all_rework_counts p.2.rework_counts
            quality_dimensions := st.quality_dimensions ++ [dimOutput p.2] }) st0).all_task_scores
        = [(c, v)] := by
  intro dims
  induction dims with
  | nil => intro st0 h _; exact h
  | cons d rest ih =>
    intro st0 h hq
    simp only [List.foldl_cons]
    apply ih
    · show dictMerge st0.all_task_scores d.2.task_scores = [(c, v)]
      rw [h, hq d (List.mem_cons_self _ _), dictMerge_single, dictSet_singleton_same]
    · intro q hq'
      exact hq q (List.mem_cons_of_mem _ hq')

theorem groupTotals_task_scores {ι : Type} [DecidableEq ι] (c : ι) (v : ℚ)
    (dims : List (String × DimAcc ι)) (hdne : dims ≠ [])
    (hq : ∀ q ∈ dims, (q : String × DimAcc ι).2.task_scores = [(c, v)]) :
    (groupTotals dims).all_task_scores = [(c, v)] := by
  cases dims with
  | nil => exact absurd rfl hdne
  | cons d rest =>
    unfold groupTotals
    simp only [List.foldl_cons]
    apply groupTotals_absorb c v rest
    · show dictMerge (GroupTotals.all_task_scores {}) d.2.task_scores = [(c, v)]
      rw [hq d (List.mem_cons_self _ _)]
      show dictMerge [] [(c, v)] = [(c, v)]
      rw [dictMerge_single, dictSet_nil]
    · intro q hq'
      exact hq q (List.mem_cons_of_mem _ hq')

theorem finalizeGroup_avg {γ ι : Type} [DecidableEq ι] (g : γ)
    (dims : List (String × DimAcc ι)) (c : ι) (v : ℚ)
    (h : (groupTotals dims).all_task_scores = [(c, v)]) :
    (finalizeGroup g dims).average_task_score = some (roundTo2 v) := by
  unfold finalizeGroup
  simp only [h, List.map_cons, List.map_nil, List.isEmpty_cons, List.sum_cons, List.sum_nil,
    List.length_cons, List.length_nil, add_zero, zero_add, Nat.cast_one, div_one,
    Bool.false_eq_true, if_false]

/-- C3. For every input row set in which all rows carry the same task
identifier and the same task-level score — the shape produced when one task
contributes several quality-dimension rows — the overall aggregation yields a
single group whose `average_task_score` is that score (rounded), computed once
per task through the identifier-keyed deduplication map, not once per row. -/
theorem averageTaskScore_deduplicated (allowed : List String) (rows : List AggInputRow)
    (c : Int) (v : ℚ)
    (hrows : ∀ r ∈ rows, r.conversation_id = some c ∧ r.task_score = some v)
    (hacc : ∃ r ∈ rows, ∃ n, r.name = some n ∧ n ≠ "" ∧ n ∈ allowed) :
    ∃ g : GroupAgg String,
      processAggregationResults allowed (fun _ => "overall") rows = [g] ∧
      g.average_task_score = some (roundTo2 v) := by
  have hinv := aggFold_overall_inv allowed c v rows hrows [] (Or.inl rfl)
  have hne := aggFold_accepted_ne_nil allowed (fun _ => "overall") rows hacc []
  rcases hinv with hnil | ⟨dims, hgd, hdne, hq⟩
  · exact absurd hnil hne
  · refine ⟨finalizeGroup "overall" dims, ?_, ?_⟩
    · unfold processAggregationResults
      rw [hgd]
      rfl
    · exact finalizeGroup_avg _ _ c v (groupTotals_task_scores c v dims hdne hq)

theorem averageTaskScore_deduplicated_witness :
    ∃ g : GroupAgg String,
      processAggregationResults ["completeness", "clarity", "accuracy"] (fun _ => "overall")
        [{ conversation_id := some 7, name := some "completeness", score := some 4,
           task_score := some 4 },
         { conversation_id := some 7, name := some "clarity", score := some 4,
           task_score := some 4 },
         { conversation_id := some 7, name := some "accuracy", score := some 4,
           task_score := some 4 }]
        = [g] ∧
      g.average_task_score = some (roundTo2 4) :=
  averageTaskScore_deduplicated ["completeness", "clarity", "accuracy"] _ 7 4
    (by with_unfolding_all decide)
    ⟨{ conversation_id := some 7, name := some "completeness", score := some 4,
       task_score := some 4 }, by with_unfolding_all decide, "completeness", rfl,
      by decide, by decide⟩

/-! ### C8: ingestion of a manifest with a missing workItemId -/

/-- C8 (counterexample). In the end-to-end scenario — one manifest with two
work items, one missing `workItemId` — the returned `errors` field is null:
the missing-id item is only logged, so no errors entry naming it exists,
contrary to the claim. -/
theorem ingest_missing_id_errors_cex :
    sampleIngest.2.errors = none := by
  with_unfolding_all decide

/-- C8 (amended). Ingesting one manifest containing 2 work items of which one
lacks the required `workItemId` yields `work_items_ingested = 1` and
`files_processed = 1`, but `errors` is null and the status is "completed":
the skipped item is logged, not reported. -/
theorem ingest_missing_id_counts :
    sampleIngest.2.work_items_ingested = 1 ∧ sampleIngest.2.files_processed = 1 ∧
    sampleIngest.2.errors = none ∧ sampleIngest.2.status = "completed" := by
  with_unfolding_all decide

/-! ### C9: the minimum-task-count filter is never applied -/

/-- C9. The route layer forwards `min_task_count`, but the aggregation service
never reads it: changing (or dropping) `min_task_count` never changes any
result, and concretely a domain group with `task_count = 1` is returned intact
under `min_task_count = 2` instead of being excluded. -/
theorem minTaskCount_filter_ignored :
    (∀ (fetch : Except String (List (Option String))) (rds : List ReviewDetailRow)
       (tasks : List TaskRow) (wis : List WorkItemRow)
       (d : Option String) (rv tr : Option Int) (q : Option String) (mn mx : Option ℚ)
       (m1 m2 : Option Nat),
      get_domain_aggregation fetch rds tasks ⟨d, rv, tr, q, mn, mx, m1⟩
          = get_domain_aggregation fetch rds tasks ⟨d, rv, tr, q, mn, mx, m2⟩ ∧
      get_overall_aggregation fetch rds tasks wis ⟨d, rv, tr, q, mn, mx, m1⟩
          = get_overall_aggregation fetch rds tasks wis ⟨d, rv, tr, q, mn, mx, m2⟩) ∧
    (get_domain_aggregation (.ok [some "accuracy"])
        [{ conversation_id := some 1, is_delivered := some "False", domain := some "Math",
           name := some "accuracy", score := some 4, task_score := some 4 }]
        [] { min_task_count := some 2 }).map (fun g => (g.group, g.task_count))
      = [(some "Math", 1)] := by
  constructor
  · intro fetch rds tasks wis d rv tr q mn mx m1 m2
    exact ⟨rfl, rfl⟩
  · with_unfolding_all decide

end RubricDashboard
